import Mathlib

/-!
Shallow embedding of the Bybit exchange adapter
(`src/passivbot/exchanges/bybit.py`).

Numeric venue fields (sizes, prices, timestamps, balances) are modelled as
integers: every claim under study is a structural, sign, or ordering claim,
none depends on floating-point rounding.  Python dictionaries coming from
the venue are modelled as structures whose fields are the keys the code
reads; a list subscript `[0]` on an empty filter result, which raises
`IndexError` in Python, is modelled as an `Except.error`.  The market type
is kept as a `String` and tested with substring membership, exactly as the
source tests `"linear_perpetual" in self.rtc.market_type`.
-/

namespace Bybit

/-- `charsStartWith l pat` holds when `pat` is an initial segment of `l`. -/
def charsStartWith : List Char → List Char → Bool
  | _, [] => true
  | [], _ :: _ => false
  | a :: as, b :: bs => a == b && charsStartWith as bs

/-- `charsHaveSub l pat` holds when `pat` occurs contiguously inside `l`. -/
def charsHaveSub : List Char → List Char → Bool
  | [], pat => charsStartWith [] pat
  | a :: as, pat => charsStartWith (a :: as) pat || charsHaveSub as pat

/-- `strHasSub s pat` mirrors Python's `pat in s` on strings. -/
def strHasSub (s pat : String) : Bool :=
  charsHaveSub s.toList pat.toList

/-- `strToLower s` mirrors Python's `s.lower()` (ASCII payloads only appear
here). -/
def strToLower (s : String) : String :=
  String.mk (s.data.map Char.toLower)

/-- One leg of a normalized `Position` (`size`, `price`, `liquidation_price`),
as built at the end of `Bybit.fetch_position`. -/
structure PositionLeg where
  size : Int
  price : Int
  liquidation_price : Int
deriving Repr, DecidableEq

/-- The normalized position produced by `Bybit.fetch_position`:
a long leg, a short leg and the wallet balance. -/
structure Position where
  long : PositionLeg
  short : PositionLeg
  wallet_balance : Int
deriving Repr, DecidableEq

/-- A raw position leg as the venue reports it: a `side` string and unsigned
magnitudes for `size`, `entry_price`, `liq_price`. -/
structure RawLeg where
  side : String
  size : Int
  entry_price : Int
  liq_price : Int
deriving Repr, DecidableEq

/-- A raw per-slot leg of the inverse-futures position endpoint, distinguished
by the numeric `position_idx` (1 = long slot, 2 = short slot).  The source
reads `e["data"]` from each list element; the model keeps the inner dict. -/
structure RawIdxLeg where
  position_idx : Nat
  size : Int
  entry_price : Int
  liq_price : Int
deriving Repr, DecidableEq

/-- The `result` field of the variant-specific position endpoint:
a side-tagged list (linear), a single leg (inverse perpetual), or an
index-tagged list (inverse futures). -/
inductive PositionFetched where
  | linear (legs : List RawLeg)
  | single (leg : RawLeg)
  | idxList (legs : List RawIdxLeg)
deriving Repr, DecidableEq

/-- The flat leg the source synthesizes for the missing side of an
inverse-perpetual snapshot: `{"size": 0.0, "entry_price": 0.0, "liq_price": 0.0}`. -/
def flatRawLeg : RawLeg :=
  { side := "None", size := 0, entry_price := 0, liq_price := 0 }

/-- Lines 240-249 of the source: build the normalized position dict from the
selected raw legs.  The short size is negated here (`-float(short_pos["size"])`);
the long size is copied unchanged. -/
def mkPosition (long_pos short_pos : RawLeg) (wb : Int) : Position :=
  { long := { size := long_pos.size, price := long_pos.entry_price,
              liquidation_price := long_pos.liq_price },
    short := { size := -short_pos.size, price := short_pos.entry_price,
               liquidation_price := short_pos.liq_price },
    wallet_balance := wb }

/-- `Bybit.fetch_position` (lines 203-250), with the HTTP calls factored out:
the caller supplies the decoded position payload and the wallet balance.
Branches on substring tests of `market_type` exactly as the source does;
an empty filter result subscripted with `[0]` becomes `.error "IndexError"`. -/
def fetch_position (market_type : String) (fetched : PositionFetched) (wb : Int) :
    Except String Position :=
  if strHasSub market_type "linear_perpetual" then
    match fetched with
    | .linear legs =>
      match legs.find? (fun e => e.side == "Buy"),
            legs.find? (fun e => e.side == "Sell") with
      | some long_pos, some short_pos => .ok (mkPosition long_pos short_pos wb)
      | _, _ => .error "IndexError"
    | _ => .error "payload shape mismatch"
  else if strHasSub market_type "inverse_perpetual" then
    match fetched with
    | .single leg =>
      if leg.side == "Buy" then .ok (mkPosition leg flatRawLeg wb)
      else .ok (mkPosition flatRawLeg leg wb)
    | _ => .error "payload shape mismatch"
  else if strHasSub market_type "inverse_futures" then
    match fetched with
    | .idxList legs =>
      match legs.find? (fun e => e.position_idx == 1),
            legs.find? (fun e => e.position_idx == 2) with
      | some l1, some l2 =>
        .ok (mkPosition { side := "Buy", size := l1.size, entry_price := l1.entry_price,
                          liq_price := l1.liq_price }
                        { side := "Sell", size := l2.size, entry_price := l2.entry_price,
                          liq_price := l2.liq_price } wb)
      | _, _ => .error "IndexError"
    | _ => .error "payload shape mismatch"
  else .error "unknown market type"

/-- A valid venue payload: every reported size is an unsigned magnitude. -/
def validFetched : PositionFetched → Bool
  | .linear legs => legs.all (fun e => decide (0 ≤ e.size))
  | .single leg => decide (0 ≤ leg.size)
  | .idxList legs => legs.all (fun e => decide (0 ≤ e.size))

/-- C1: for every valid venue position payload (sizes reported as unsigned
magnitudes) and each of the three market variants, a successful
`fetch_position` returns a `Position` with `long.size ≥ 0` and
`short.size ≤ 0`, including the all-flat case; the short leg's sign
conversion happens inside `fetch_position`. -/
theorem fetch_position_short_nonpos (market_type : String) (fetched : PositionFetched)
    (wb : Int) (p : Position) (hvalid : validFetched fetched = true)
    (hok : fetch_position market_type fetched wb = .ok p) :
    0 ≤ p.long.size ∧ p.short.size ≤ 0 := by
  cases fetched with
  | linear legs =>
    simp only [validFetched, List.all_eq_true, decide_eq_true_eq] at hvalid
    unfold fetch_position at hok
    dsimp only at hok
    split_ifs at hok
    cases hl : legs.find? (fun e => e.side == "Buy") with
    | none =>
      rw [hl] at hok
      cases hs : legs.find? (fun e => e.side == "Sell") <;> rw [hs] at hok <;>
        exact Except.noConfusion hok
    | some long_pos =>
      cases hs : legs.find? (fun e => e.side == "Sell") with
      | none =>
        rw [hl, hs] at hok
        exact Except.noConfusion hok
      | some short_pos =>
        rw [hl, hs] at hok
        injection hok with hok
        subst hok
        have v1 := hvalid _ (List.mem_of_find?_eq_some hl)
        have v2 := hvalid _ (List.mem_of_find?_eq_some hs)
        simp only [mkPosition]
        omega
  | single leg =>
    simp only [validFetched, decide_eq_true_eq] at hvalid
    unfold fetch_position at hok
    dsimp only at hok
    split_ifs at hok <;> injection hok with hok <;> subst hok <;>
      simp only [mkPosition, flatRawLeg] <;> omega
  | idxList legs =>
    simp only [validFetched, List.all_eq_true, decide_eq_true_eq] at hvalid
    unfold fetch_position at hok
    dsimp only at hok
    split_ifs at hok
    cases hl : legs.find? (fun e => e.position_idx == 1) with
    | none =>
      rw [hl] at hok
      cases hs : legs.find? (fun e => e.position_idx == 2) <;> rw [hs] at hok <;>
        exact Except.noConfusion hok
    | some l1 =>
      cases hs : legs.find? (fun e => e.position_idx == 2) with
      | none =>
        rw [hl, hs] at hok
        exact Except.noConfusion hok
      | some l2 =>
        rw [hl, hs] at hok
        injection hok with hok
        subst hok
        have v1 := hvalid _ (List.mem_of_find?_eq_some hl)
        have v2 := hvalid _ (List.mem_of_find?_eq_some hs)
        simp only [mkPosition]
        omega

/-- Witness for C1: a concrete all-flat inverse-perpetual snapshot. -/
theorem fetch_position_short_nonpos_witness :
    validFetched (.single flatRawLeg) = true ∧
    fetch_position "futures_inverse_perpetual" (.single flatRawLeg) 5 =
      .ok (mkPosition flatRawLeg flatRawLeg 5) ∧
    (0 ≤ (mkPosition flatRawLeg flatRawLeg 5).long.size ∧
      (mkPosition flatRawLeg flatRawLeg 5).short.size ≤ 0) :=
  ⟨by decide, by rfl,
    fetch_position_short_nonpos "futures_inverse_perpetual" (.single flatRawLeg) 5
      (mkPosition flatRawLeg flatRawLeg 5) (by decide) (by rfl)⟩

/-- C8: for the inverse-futures variant, the snapshot fails (an
`IndexError`-style error, standing for `IncompleteSnapshot`) when the leg
with `position_idx` 1 or the leg with `position_idx` 2 is absent; when both
slots are present it succeeds and uses exactly the first leg found for each
slot. -/
theorem fetch_position_inverse_futures_slots (mt : String) (legs : List RawIdxLeg) (wb : Int)
    (h1 : strHasSub mt "linear_perpetual" = false)
    (h2 : strHasSub mt "inverse_perpetual" = false)
    (h3 : strHasSub mt "inverse_futures" = true) :
    (((∀ e ∈ legs, e.position_idx ≠ 1) ∨ (∀ e ∈ legs, e.position_idx ≠ 2)) →
        fetch_position mt (.idxList legs) wb = .error "IndexError") ∧
    (∀ l1 l2, legs.find? (fun e => e.position_idx == 1) = some l1 →
        legs.find? (fun e => e.position_idx == 2) = some l2 →
        fetch_position mt (.idxList legs) wb =
          .ok { long := { size := l1.size, price := l1.entry_price,
                          liquidation_price := l1.liq_price },
                short := { size := -l2.size, price := l2.entry_price,
                           liquidation_price := l2.liq_price },
                wallet_balance := wb }) := by
  constructor
  · rintro (h | h)
    · have hn : legs.find? (fun e => e.position_idx == 1) = none := by
        rw [List.find?_eq_none]
        intro x hx
        simpa using h x hx
      cases hs : legs.find? (fun e => e.position_idx == 2) <;>
        simp [fetch_position, h1, h2, h3, hn, hs]
    · have hn : legs.find? (fun e => e.position_idx == 2) = none := by
        rw [List.find?_eq_none]
        intro x hx
        simpa using h x hx
      cases hs : legs.find? (fun e => e.position_idx == 1) <;>
        simp [fetch_position, h1, h2, h3, hn, hs]
  · intro l1 l2 hf1 hf2
    simp [fetch_position, mkPosition, h1, h2, h3, hf1, hf2]

/-- Witness for C8: a one-slot payload fails, a two-slot payload succeeds. -/
theorem fetch_position_inverse_futures_slots_witness :
    strHasSub "futures_inverse_futures" "linear_perpetual" = false ∧
    strHasSub "futures_inverse_futures" "inverse_perpetual" = false ∧
    strHasSub "futures_inverse_futures" "inverse_futures" = true ∧
    fetch_position "futures_inverse_futures"
      (.idxList [{ position_idx := 1, size := 3, entry_price := 7, liq_price := 2 }]) 4 =
      .error "IndexError" :=
  ⟨by decide, by decide, by decide,
    (fetch_position_inverse_futures_slots "futures_inverse_futures"
      [{ position_idx := 1, size := 3, entry_price := 7, liq_price := 2 }] 4
      (by decide) (by decide) (by decide)).1 (Or.inr (by decide))⟩

/-- `strEndsWith s suf` mirrors Python's `s.endswith(suf)`. -/
def strEndsWith (s suf : String) : Bool :=
  charsStartWith s.toList.reverse suf.toList.reverse

/-- The `leverage_filter` object of a venue instrument-metadata entry. -/
structure LeverageFilter where
  max_leverage : Int
deriving Repr, DecidableEq

/-- The `price_filter` object of a venue instrument-metadata entry. -/
structure PriceFilter where
  tick_size : Int
deriving Repr, DecidableEq

/-- The `lot_size_filter` object of a venue instrument-metadata entry. -/
structure LotSizeFilter where
  qty_step : Int
  min_trading_qty : Int
deriving Repr, DecidableEq

/-- One entry of the venue-wide instrument metadata list
(`/v2/public/symbols` response), with the fields `init_market_type` reads. -/
structure SymbolData where
  name : String
  base_currency : String
  quote_currency : String
  leverage_filter : LeverageFilter
  price_filter : PriceFilter
  lot_size_filter : LotSizeFilter
deriving Repr, DecidableEq

/-- `RuntimeFuturesConfig`, restricted to the fields the Bybit adapter
reads or writes in the code under study. -/
structure RuntimeFuturesConfig where
  market_type : String
  inverse : Bool
  hedge_mode : Bool
  max_leverage : Int
  coin : String
  quote : String
  price_step : Int
  qty_step : Int
  min_qty : Int
  min_cost : Int
  margin_coin : String
deriving Repr, DecidableEq

/-- `Bybit.init_market_type` (lines 138-174), with the metadata fetch factored
out: classify the variant from the symbol suffix, then linear-scan the
metadata list for the first entry whose `name` matches (raising
`"symbol missing ..."` when none does) and copy its trading constants. -/
def init_market_type (symbol : String) (exchange_info : List SymbolData)
    (rtc : RuntimeFuturesConfig) : Except String RuntimeFuturesConfig :=
  let rtc1 :=
    if strEndsWith symbol "USDT" then
      { rtc with market_type := rtc.market_type ++ "_linear_perpetual", inverse := false }
    else if strEndsWith symbol "USD" then
      { rtc with market_type := rtc.market_type ++ "_inverse_perpetual",
                 inverse := true, hedge_mode := false }
    else
      { rtc with market_type := rtc.market_type ++ "_inverse_futures", inverse := true }
  match exchange_info.find? (fun sd => sd.name == symbol) with
  | none => .error ("symbol missing " ++ symbol)
  | some sd =>
    let rtc2 := { rtc1 with
      max_leverage := sd.leverage_filter.max_leverage,
      coin := sd.base_currency,
      quote := sd.quote_currency,
      price_step := sd.price_filter.tick_size,
      qty_step := sd.lot_size_filter.qty_step,
      min_qty := sd.lot_size_filter.min_trading_qty,
      min_cost := 0 }
    .ok { rtc2 with margin_coin := if rtc2.inverse then rtc2.coin else rtc2.quote }

/-- C5: market-type resolution is determined purely by the symbol suffix
(`USDT` → linear perpetual, `inverse = false`; otherwise `USD` → inverse
perpetual, `inverse = true`, `hedge_mode = false`; otherwise inverse
futures, `inverse = true`); every successful resolution sets
`min_cost = 0` and `margin_coin` to the base coin when inverse, else the
quote coin; resolution fails when the symbol is absent from the venue
metadata list. -/
theorem init_market_type_resolution (symbol : String) (info : List SymbolData)
    (rtc : RuntimeFuturesConfig) :
    (∀ out, init_market_type symbol info rtc = .ok out →
      (strEndsWith symbol "USDT" = true →
        out.market_type = rtc.market_type ++ "_linear_perpetual" ∧ out.inverse = false) ∧
      (strEndsWith symbol "USDT" = false → strEndsWith symbol "USD" = true →
        out.market_type = rtc.market_type ++ "_inverse_perpetual" ∧ out.inverse = true ∧
          out.hedge_mode = false) ∧
      (strEndsWith symbol "USDT" = false → strEndsWith symbol "USD" = false →
        out.market_type = rtc.market_type ++ "_inverse_futures" ∧ out.inverse = true) ∧
      out.min_cost = 0 ∧
      out.margin_coin = (if out.inverse then out.coin else out.quote)) ∧
    ((∀ sd ∈ info, sd.name ≠ symbol) →
      init_market_type symbol info rtc = .error ("symbol missing " ++ symbol)) := by
  constructor
  · intro out hok
    unfold init_market_type at hok
    cases hf : info.find? (fun sd => sd.name == symbol) with
    | none =>
      rw [hf] at hok
      exact Except.noConfusion hok
    | some sd =>
      rw [hf] at hok
      injection hok with hok
      subst hok
      cases h1 : strEndsWith symbol "USDT" <;> cases h2 : strEndsWith symbol "USD" <;>
        simp [h1, h2]
  · intro habs
    have hf : info.find? (fun sd => sd.name == symbol) = none := by
      rw [List.find?_eq_none]
      intro x hx
      simpa using habs x hx
    unfold init_market_type
    rw [hf]

/-- A concrete metadata entry for the resolver witness. -/
def sdBTCUSDT : SymbolData :=
  { name := "BTCUSDT", base_currency := "BTC", quote_currency := "USDT",
    leverage_filter := { max_leverage := 100 },
    price_filter := { tick_size := 5 },
    lot_size_filter := { qty_step := 1, min_trading_qty := 1 } }

/-- The runtime config a resolver run starts from, for the witness. -/
def rtcStart : RuntimeFuturesConfig :=
  { market_type := "futures", inverse := true, hedge_mode := true,
    max_leverage := 0, coin := "", quote := "", price_step := 0,
    qty_step := 0, min_qty := 0, min_cost := 7, margin_coin := "" }

/-- The runtime config resolving `"BTCUSDT"` from `rtcStart` produces. -/
def rtcResolved : RuntimeFuturesConfig :=
  { market_type := "futures_linear_perpetual", inverse := false, hedge_mode := true,
    max_leverage := 100, coin := "BTC", quote := "USDT", price_step := 5,
    qty_step := 1, min_qty := 1, min_cost := 0, margin_coin := "USDT" }

/-- Witness for C5: `"BTCUSDT"` resolves to linear perpetual against a
one-entry metadata list, and an empty metadata list makes resolution fail. -/
theorem init_market_type_resolution_witness :
    init_market_type "BTCUSDT" [sdBTCUSDT] rtcStart = .ok rtcResolved ∧
    (rtcResolved.market_type = rtcStart.market_type ++ "_linear_perpetual" ∧
      rtcResolved.inverse = false) ∧
    rtcResolved.min_cost = 0 ∧
    rtcResolved.margin_coin = (if rtcResolved.inverse then rtcResolved.coin
                               else rtcResolved.quote) ∧
    init_market_type "BTCUSDT" [] rtcStart = .error ("symbol missing " ++ "BTCUSDT") := by
  have hok : init_market_type "BTCUSDT" [sdBTCUSDT] rtcStart = .ok rtcResolved := by rfl
  have h := (init_market_type_resolution "BTCUSDT" [sdBTCUSDT] rtcStart).1 rtcResolved hok
  exact ⟨hok, h.1 (by decide), h.2.2.2.1, h.2.2.2.2,
    (init_market_type_resolution "BTCUSDT" [] rtcStart).2 (by intro sd hsd; cases hsd)⟩

/-- A canonical order, restricted to the fields this adapter's code touches. -/
structure Order where
  order_id : String
  symbol : String
  price : Int
  qty : Int
  order_type : String
  side : String
  timestamp : Int
deriving Repr, DecidableEq

/-- The order body a venue response echoes, with both variant-specific
creation-time keys present. -/
structure BybitOrderPayload where
  order_id : String
  symbol : String
  price : Int
  qty : Int
  order_type : String
  side : String
  created_at : Int
  created_time : Int
deriving Repr, DecidableEq

/-- Modelled from the spec: `Order.from_bybit_payload` lives in
`passivbot.datastructures`, outside the sources under study.  Per the spec it
builds a canonical `Order` from the venue's echoed fields, reading the
creation timestamp from the variant-specific key passed by the caller
(`created_at` for inverse variants, `created_time` for linear). -/
def Order.from_bybit_payload (p : BybitOrderPayload) (created_at_key : String) : Order :=
  { order_id := p.order_id, symbol := p.symbol, price := p.price, qty := p.qty,
    order_type := p.order_type, side := p.side,
    timestamp := if created_at_key == "created_at" then p.created_at else p.created_time }

/-- Outcome of one authenticated HTTP call as the order operations see it:
a decoded body, a venue error envelope (`HTTPRequestError{code, msg}`), or
any other transport/decoding failure. -/
inductive ApiResult (α : Type) where
  | ok (result : α)
  | httpError (code : Int) (msg : String)
  | otherError
deriving Repr, DecidableEq

/-- `Bybit.execute_order` (lines 252-271) with the POST factored out: an
empty echoed `result` body (falsy in Python) is modelled as `.ok none`;
both exception arms log and fall through to `None`. -/
def execute_order (inverse : Bool) (resp : ApiResult (Option BybitOrderPayload)) :
    Option Order :=
  match resp with
  | .ok (some payload) =>
      some (Order.from_bybit_payload payload
        (if inverse then "created_at" else "created_time"))
  | .ok none => none
  | .httpError _ _ => none
  | .otherError => none

/-- `Bybit.execute_cancellation` (lines 273-288) with the POST factored out:
`.ok (some oid)` is a response whose `result.order_id` is `oid` (`.ok none`
models a body on which that subscript raises, caught by the generic
handler); on success the passed order's id is replaced and the order
returned. -/
def execute_cancellation (order : Order) (resp : ApiResult (Option String)) :
    Option Order :=
  match resp with
  | .ok (some oid) => some { order with order_id := oid }
  | .ok none => none
  | .httpError _ _ => none
  | .otherError => none

/-- C7: both order operations catch venue errors and transport/other errors
internally and return `none` instead of raising; `execute_order` also
returns `none` on an empty echoed result body; on success
`execute_cancellation` returns the passed order with its venue order id
replaced by the one in the cancellation response. -/
theorem execute_order_cancellation_error_handling (inverse : Bool) (order : Order)
    (resp : ApiResult (Option BybitOrderPayload)) (cresp : ApiResult (Option String)) :
    ((∀ c m, resp = .httpError c m → execute_order inverse resp = none) ∧
     (resp = .otherError → execute_order inverse resp = none) ∧
     (resp = .ok none → execute_order inverse resp = none)) ∧
    ((∀ c m, cresp = .httpError c m → execute_cancellation order cresp = none) ∧
     (cresp = .otherError → execute_cancellation order cresp = none) ∧
     (∀ oid, cresp = .ok (some oid) →
        execute_cancellation order cresp = some { order with order_id := oid })) :=
  ⟨⟨fun c m h => by subst h; rfl, fun h => by subst h; rfl, fun h => by subst h; rfl⟩,
   ⟨fun c m h => by subst h; rfl, fun h => by subst h; rfl, fun oid h => by subst h; rfl⟩⟩

/-- A concrete order for the order-operation witness. -/
def ordEx : Order :=
  { order_id := "A1", symbol := "BTCUSD", price := 50000, qty := 1,
    order_type := "limit", side := "buy", timestamp := 1000 }

/-- Witness for C7 at concrete inputs: a venue error and an empty body yield
`none` from `execute_order`; a successful cancellation response rewrites the
order id. -/
theorem execute_order_cancellation_error_handling_witness :
    execute_order false (.httpError 10001 "error") = none ∧
    execute_order false (.ok none) = none ∧
    execute_cancellation ordEx (.ok (some "B2")) = some { ordEx with order_id := "B2" } :=
  ⟨(execute_order_cancellation_error_handling false ordEx (.httpError 10001 "error")
      (.ok (some "B2"))).1.1 10001 "error" rfl,
   (execute_order_cancellation_error_handling false ordEx (.ok none)
      (.ok (some "B2"))).1.2.2 rfl,
   (execute_order_cancellation_error_handling false ordEx (.ok none)
      (.ok (some "B2"))).2.2.2 "B2" rfl⟩

/-- A realized-fill record; `Bybit.fetch_fills` never constructs one. -/
structure Fill where
  id : String
  order_id : String
  price : Int
  qty : Int
deriving Repr, DecidableEq

/-- `Bybit.fetch_fills` (lines 446-454): every argument is ignored and the
empty list returned (the venue-specific body is commented out in the
source). -/
def fetch_fills (symbol : Option String) (limit : Int) (from_id : Option Int)
    (start_time : Option Int) (end_time : Option Int) : List Fill :=
  []

/-- C9: for every combination of arguments, `fetch_fills` returns the empty
list; fill reconciliation through it is a no-op in this adapter. -/
theorem fetch_fills_always_empty (symbol : Option String) (limit : Int)
    (from_id : Option Int) (start_time : Option Int) (end_time : Option Int) :
    fetch_fills symbol limit from_id start_time end_time = [] :=
  rfl

/-- The configuration calls `init_exchange_config` can issue, one constructor
per call site (endpoint plus parameter set). -/
inductive CfgCall where
  | futures_leverage_save_idx1
  | futures_leverage_save_idx2
  | futures_switch_mode
  | linear_switch_isolated
  | linear_set_leverage
  | inverse_leverage_save
deriving Repr, DecidableEq

/-- Outcome of one configuration POST: success, a venue error envelope with
its code, or any other exception. -/
inductive CallOutcome where
  | ok
  | httpError (code : Int)
  | otherError
deriving Repr, DecidableEq

/-- State accumulated while running the configuration calls: the calls
attempted, those whose benign error was logged at info level, and whether a
re-raised failure aborted the rest of the sequence. -/
structure CfgRun where
  attempted : List CfgCall
  info_logged : List CfgCall
  aborted : Bool
deriving Repr, DecidableEq

/-- Run the configuration calls in order.  A venue error whose code equals
the call's benign code is logged at info level and the run continues; any
other venue code, and any other exception, re-raises past the per-call
handler, skipping the remaining calls. -/
def runCfgCalls (venue : CfgCall → CallOutcome) : List (CfgCall × Int) → CfgRun
  | [] => { attempted := [], info_logged := [], aborted := false }
  | (c, benign) :: rest =>
    match venue c with
    | .ok =>
      let r := runCfgCalls venue rest
      { r with attempted := c :: r.attempted }
    | .httpError code =>
      if code = benign then
        let r := runCfgCalls venue rest
        { r with attempted := c :: r.attempted, info_logged := c :: r.info_logged }
      else { attempted := [c], info_logged := [], aborted := true }
    | .otherError => { attempted := [c], info_logged := [], aborted := true }

/-- The configuration-call sequence made for a market type, paired with each
call's documented benign code: 130056 everywhere except 34036 for the
linear set-leverage call. -/
def cfgCallsFor (market_type : String) : List (CfgCall × Int) :=
  if strHasSub market_type "inverse_futures" then
    [(.futures_leverage_save_idx1, 130056), (.futures_leverage_save_idx2, 130056),
     (.futures_switch_mode, 130056)]
  else if strHasSub market_type "linear_perpetual" then
    [(.linear_switch_isolated, 130056), (.linear_set_leverage, 34036)]
  else if strHasSub market_type "inverse_perpetual" then
    [(.inverse_leverage_save, 130056)]
  else []

/-- What the caller of `init_exchange_config` observes: the info-logged
calls, whether the outer handler logged an error, and the exception escaping
the function, if any. -/
structure InitExchangeConfigResult where
  info_logged : List CfgCall
  error_logged : Bool
  raised : Option Int
deriving Repr, DecidableEq

/-- `Bybit.init_exchange_config` (lines 492-573) with the POSTs factored
out: run the variant's configuration calls; the whole body is wrapped in
`try ... except Exception: log.error(...)`, so a re-raised non-benign error
is caught there, logged at error level, and nothing escapes the function. -/
def init_exchange_config (market_type : String) (venue : CfgCall → CallOutcome) :
    InitExchangeConfigResult :=
  let r := runCfgCalls venue (cfgCallsFor market_type)
  { info_logged := r.info_logged, error_logged := r.aborted, raised := none }

/-- If every configuration call either succeeds or fails with its benign
code, the run never aborts and each benign failure is logged at info
level. -/
theorem runCfgCalls_benign (venue : CfgCall → CallOutcome) :
    ∀ l : List (CfgCall × Int),
      (∀ cb ∈ l, venue cb.1 = .ok ∨ venue cb.1 = .httpError cb.2) →
      (runCfgCalls venue l).aborted = false ∧
      (∀ cb ∈ l, venue cb.1 = .httpError cb.2 →
        cb.1 ∈ (runCfgCalls venue l).info_logged) := by
  intro l
  induction l with
  | nil =>
    intro _
    exact ⟨rfl, by intro cb h; cases h⟩
  | cons hd tl ih =>
    intro hall
    obtain ⟨c, benign⟩ := hd
    have ihres := ih (fun cb hcb => hall cb (List.mem_cons_of_mem _ hcb))
    rcases hall (c, benign) (List.mem_cons_self _ _) with hok | herr
    · refine ⟨by simp [runCfgCalls, hok, ihres.1], ?_⟩
      intro cb hcb hcberr
      rcases List.mem_cons.mp hcb with rfl | hmem
      · rw [hok] at hcberr
        exact CallOutcome.noConfusion hcberr
      · simpa [runCfgCalls, hok] using ihres.2 cb hmem hcberr
    · refine ⟨by simp [runCfgCalls, herr, ihres.1], ?_⟩
      intro cb hcb hcberr
      rcases List.mem_cons.mp hcb with rfl | hmem
      · simp [runCfgCalls, herr]
      · simp only [runCfgCalls, herr, if_pos rfl]
        exact List.mem_cons_of_mem _ (ihres.2 cb hmem hcberr)

/-- If a run aborted, some call in the sequence failed with a non-benign
venue code or a non-venue exception. -/
theorem runCfgCalls_aborted (venue : CfgCall → CallOutcome) :
    ∀ l : List (CfgCall × Int), (runCfgCalls venue l).aborted = true →
      ∃ cb ∈ l, (∃ code, venue cb.1 = .httpError code ∧ code ≠ cb.2) ∨
        venue cb.1 = .otherError := by
  intro l
  induction l with
  | nil =>
    intro h
    exact absurd h (by simp [runCfgCalls])
  | cons hd tl ih =>
    intro h
    obtain ⟨c, benign⟩ := hd
    cases hv : venue c with
    | ok =>
      rw [show (runCfgCalls venue ((c, benign) :: tl)).aborted =
            (runCfgCalls venue tl).aborted by simp [runCfgCalls, hv]] at h
      obtain ⟨cb, hcb, hprop⟩ := ih h
      exact ⟨cb, List.mem_cons_of_mem _ hcb, hprop⟩
    | httpError code =>
      by_cases hcode : code = benign
      · subst hcode
        rw [show (runCfgCalls venue ((c, code) :: tl)).aborted =
              (runCfgCalls venue tl).aborted by simp [runCfgCalls, hv]] at h
        obtain ⟨cb, hcb, hprop⟩ := ih h
        exact ⟨cb, List.mem_cons_of_mem _ hcb, hprop⟩
      · exact ⟨(c, benign), List.mem_cons_self _ _, Or.inl ⟨code, hv, hcode⟩⟩
    | otherError =>
      exact ⟨(c, benign), List.mem_cons_self _ _, Or.inr hv⟩

/-- Venue responses for the C6 counterexample: the linear set-leverage call
fails with a code that is not its documented benign one. -/
def venueNonBenign : CfgCall → CallOutcome
  | .linear_set_leverage => .httpError 99999
  | _ => .ok

/-- Counterexample to C6 as stated: the linear set-leverage call fails with
the non-benign code 99999, yet nothing escapes `init_exchange_config`
(`raised = none`) — its outer `except Exception` swallows the re-raised
error and logs it at error level, so the error is not propagated to the
caller as the claim requires. -/
theorem init_exchange_config_counterexample :
    venueNonBenign .linear_set_leverage = .httpError 99999 ∧
    (99999 : Int) ≠ 34036 ∧
    (init_exchange_config "futures_linear_perpetual" venueNonBenign).raised = none ∧
    (init_exchange_config "futures_linear_perpetual" venueNonBenign).error_logged = true :=
  ⟨rfl, by decide, rfl, by decide⟩

/-- C6 amended: a venue error carrying the documented benign code (130056,
or 34036 for the linear set-leverage call) is logged at informational level
and not surfaced as an error; a venue error with any other code (or any
other exception) aborts the remaining configuration calls and is caught by
`init_exchange_config`'s own outer handler, which logs it at error level —
nothing propagates to the caller. -/
theorem init_exchange_config_error_policy (market_type : String)
    (venue : CfgCall → CallOutcome) :
    (init_exchange_config market_type venue).raised = none ∧
    ((∀ cb ∈ cfgCallsFor market_type,
        venue cb.1 = .ok ∨ venue cb.1 = .httpError cb.2) →
      (init_exchange_config market_type venue).error_logged = false ∧
      ∀ cb ∈ cfgCallsFor market_type, venue cb.1 = .httpError cb.2 →
        cb.1 ∈ (init_exchange_config market_type venue).info_logged) ∧
    ((init_exchange_config market_type venue).error_logged = true →
      ∃ cb ∈ cfgCallsFor market_type,
        (∃ code, venue cb.1 = .httpError code ∧ code ≠ cb.2) ∨
          venue cb.1 = .otherError) := by
  refine ⟨rfl, ?_, ?_⟩
  · intro hall
    have h := runCfgCalls_benign venue (cfgCallsFor market_type) hall
    exact ⟨h.1, h.2⟩
  · intro herr
    exact runCfgCalls_aborted venue (cfgCallsFor market_type) herr

/-- Venue responses for the C6 witness: every configuration call answers
with its own benign "already set" code. -/
def venueBenign : CfgCall → CallOutcome
  | .linear_set_leverage => .httpError 34036
  | _ => .httpError 130056

/-- Witness for C6 (amended): on a linear-perpetual market where both
configuration calls answer with their benign codes, no error is logged or
raised and the set-leverage call is info-logged. -/
theorem init_exchange_config_error_policy_witness :
    (init_exchange_config "futures_linear_perpetual" venueBenign).raised = none ∧
    (init_exchange_config "futures_linear_perpetual" venueBenign).error_logged = false ∧
    CfgCall.linear_set_leverage ∈
      (init_exchange_config "futures_linear_perpetual" venueBenign).info_logged := by
  have h := init_exchange_config_error_policy "futures_linear_perpetual" venueBenign
  have hb := h.2.1 (by decide)
  exact ⟨h.1, hb.1, hb.2 (.linear_set_leverage, 34036) (by decide) (by decide)⟩

/-- `determine_pos_side` (lines 33-47): infer the intended position side of
an order dict from its side and the intent tag (`entry`/`close`) embedded in
its client label (`order_link_id`). -/
def determine_pos_side (side order_link_id : String) : String :=
  if strToLower side == "buy" then
    if strHasSub order_link_id "entry" then "long"
    else if strHasSub order_link_id "close" then "short"
    else "both"
  else
    if strHasSub order_link_id "entry" then "short"
    else if strHasSub order_link_id "close" then "long"
    else "both"

/-- Modelled from the spec: `date_to_ts` (in `passivbot.utils.funcs.pure`,
outside the sources under study) parses a venue date string to milliseconds
since epoch.  The stream-element timestamp fields are modelled directly as
the parsed millisecond values, making the conversion the identity here. -/
def date_to_ts (t : Int) : Int := t

/-- One element of an order-topic stream message, with the fields the
normalizer reads. -/
structure OrderElm where
  symbol : String
  order_status : String
  order_id : String
  price : Int
  qty : Int
  order_type : String
  side : String
  timestamp : Int
  update_time : Int
  create_type : String
  order_link_id : String
deriving Repr, DecidableEq

/-- The `new_open_order` entry built for a `New` order event. -/
structure NewOpenOrder where
  order_id : String
  symbol : String
  price : Int
  qty : Int
  order_type : String
  side : String
  timestamp : Int
  position_side : String
deriving Repr, DecidableEq

/-- One element of a position-topic stream message. -/
structure PositionElm where
  symbol : String
  side : String
  size : Int
  entry_price : Int
  wallet_balance : Int
deriving Repr, DecidableEq

/-- One element of an execution-topic stream message. -/
structure ExecutionElm where
  symbol : String
  exec_type : String
deriving Repr, DecidableEq

/-- One element of a wallet-topic stream message. -/
structure WalletElm where
  wallet_balance : Int
deriving Repr, DecidableEq

/-- A user-stream event, discriminated by its `topic` field; `noTopic`
covers messages without one. -/
inductive UserStreamEvent where
  | order (data : List OrderElm)
  | execution (data : List ExecutionElm)
  | position (data : List PositionElm)
  | wallet (data : List WalletElm)
  | noTopic
deriving Repr, DecidableEq

/-- The `standardized` dict built by `standardize_user_stream_event`: every
key it can set, each `none` until assigned. -/
structure Standardized where
  new_open_order : Option NewOpenOrder := none
  deleted_order_id : Option String := none
  partially_filled : Option String := none
  long_psize : Option Int := none
  long_pprice : Option Int := none
  short_psize : Option Int := none
  short_pprice : Option Int := none
  wallet_balance : Option Int := none
  other_symbol : Option String := none
  other_type : Option String := none
deriving Repr, DecidableEq

/-- Lines 628-667: the `new_open_order` dict built for a `New` order
element, including the variant-specific timestamp key and the inferred
position side. -/
def newOpenOrderOf (rtc : RuntimeFuturesConfig) (position : Position)
    (elm : OrderElm) : NewOpenOrder :=
  let timestamp := if rtc.inverse then date_to_ts elm.timestamp
                   else date_to_ts elm.update_time
  let side := strToLower elm.side
  let position_side :=
    if strHasSub rtc.market_type "inverse_perpetual" then
      if position.long.size = 0 then
        if position.short.size = 0 then
          if side == "buy" then "long" else "short"
        else "short"
      else "long"
    else if strHasSub rtc.market_type "inverse_futures" then
      determine_pos_side elm.side elm.order_link_id
    else
      if (side == "buy" && elm.create_type == "CreateByUser")
          || (side == "sell" && elm.create_type == "CreateByClosing") then "long"
      else "short"
  { order_id := elm.order_id, symbol := elm.symbol, price := elm.price,
    qty := elm.qty, order_type := strToLower elm.order_type, side := side,
    timestamp := timestamp, position_side := position_side }

/-- Lines 621-681: process one order-topic element.  `Created`, `Rejected`
and `PendingCancel` leave the dict untouched, as does any status string the
chain does not name (there is no `else` arm in the source). -/
def processOrderElm (cfgSymbol : String) (rtc : RuntimeFuturesConfig)
    (position : Position) (std : Standardized) (elm : OrderElm) : Standardized :=
  if elm.symbol == cfgSymbol then
    if elm.order_status == "Created" then std
    else if elm.order_status == "Rejected" then std
    else if elm.order_status == "New" then
      { std with new_open_order := some (newOpenOrderOf rtc position elm) }
    else if elm.order_status == "PartiallyFilled" then
      { std with deleted_order_id := some elm.order_id,
                 partially_filled := some elm.order_id }
    else if elm.order_status == "Filled" then
      { std with deleted_order_id := some elm.order_id }
    else if elm.order_status == "Cancelled" then
      { std with deleted_order_id := some elm.order_id }
    else std
  else
    { std with other_symbol := some elm.symbol, other_type := some "order" }

/-- Lines 682-690: process one execution-topic element; a `Trade` execution
for the configured symbol is intentionally ignored. -/
def processExecutionElm (cfgSymbol : String) (std : Standardized)
    (elm : ExecutionElm) : Standardized :=
  if elm.symbol == cfgSymbol then std
  else
    { std with other_symbol := some elm.symbol, other_type := some "execution" }

/-- Lines 691-704: process one position-topic element; for inverse variants
the element's `wallet_balance` field is read. -/
def processPositionElm (cfgSymbol : String) (rtc : RuntimeFuturesConfig)
    (std : Standardized) (elm : PositionElm) : Standardized :=
  if elm.symbol == cfgSymbol then
    let std1 :=
      if elm.side == "Buy" then
        { std with long_psize := some elm.size, long_pprice := some elm.entry_price }
      else if elm.side == "Sell" then
        { std with short_psize := some (-(Int.natAbs elm.size : Int)),
                   short_pprice := some elm.entry_price }
      else std
    if rtc.inverse then { std1 with wallet_balance := some elm.wallet_balance }
    else std1
  else
    { std with other_symbol := some elm.symbol, other_type := some "position" }

/-- `Bybit.standardize_user_stream_event` (lines 617-708), with the event
decoded into `UserStreamEvent`: fold the per-topic element processor over
the event's data; a wallet-topic event is handled only when the config is
not inverse (`elif not self.rtc.inverse and event["topic"] == "wallet"`). -/
def standardize_user_stream_event (cfgSymbol : String) (rtc : RuntimeFuturesConfig)
    (position : Position) : UserStreamEvent → Standardized
  | .order data => data.foldl (processOrderElm cfgSymbol rtc position) {}
  | .execution data => data.foldl (processExecutionElm cfgSymbol) {}
  | .position data => data.foldl (processPositionElm cfgSymbol rtc) {}
  | .wallet data =>
    if rtc.inverse then {}
    else data.foldl
      (fun std elm => { std with wallet_balance := some elm.wallet_balance }) {}
  | .noTopic => {}

/-- C2: for an order-topic event for the configured symbol, `Created` and
`Rejected` produce no state-change entry; `New` produces a new-open-order
entry (and nothing else); `PartiallyFilled`, `Filled` and `Cancelled` each
produce a deleted-order-id entry, with `PartiallyFilled` additionally
flagging a partial execution and producing no other entry (in particular no
fill record); any status outside this table produces no entry at all. -/
theorem order_status_transition_table (cfgSymbol : String) (rtc : RuntimeFuturesConfig)
    (position : Position) (elm : OrderElm) (hsym : elm.symbol = cfgSymbol) :
    ((elm.order_status = "Created" ∨ elm.order_status = "Rejected") →
      standardize_user_stream_event cfgSymbol rtc position (.order [elm]) = {}) ∧
    (elm.order_status = "New" →
      ∃ o, standardize_user_stream_event cfgSymbol rtc position (.order [elm]) =
        { new_open_order := some o }) ∧
    (elm.order_status = "PartiallyFilled" →
      standardize_user_stream_event cfgSymbol rtc position (.order [elm]) =
        { deleted_order_id := some elm.order_id,
          partially_filled := some elm.order_id }) ∧
    (elm.order_status = "Filled" →
      standardize_user_stream_event cfgSymbol rtc position (.order [elm]) =
        { deleted_order_id := some elm.order_id }) ∧
    (elm.order_status = "Cancelled" →
      standardize_user_stream_event cfgSymbol rtc position (.order [elm]) =
        { deleted_order_id := some elm.order_id }) ∧
    (elm.order_status ∉
        ["Created", "Rejected", "New", "PartiallyFilled", "Filled", "Cancelled"] →
      standardize_user_stream_event cfgSymbol rtc position (.order [elm]) = {}) := by
  refine ⟨?_, ?_, ?_, ?_, ?_, ?_⟩
  · rintro (h | h) <;> simp [standardize_user_stream_event, processOrderElm, hsym, h]
  · intro h
    exact ⟨newOpenOrderOf rtc position elm,
      by simp [standardize_user_stream_event, processOrderElm, hsym, h]⟩
  · intro h
    simp [standardize_user_stream_event, processOrderElm, hsym, h]
  · intro h
    simp [standardize_user_stream_event, processOrderElm, hsym, h]
  · intro h
    simp [standardize_user_stream_event, processOrderElm, hsym, h]
  · intro h
    simp only [List.mem_cons, List.not_mem_nil, or_false, not_or] at h
    obtain ⟨h1, h2, h3, h4, h5, h6⟩ := h
    simp [standardize_user_stream_event, processOrderElm, hsym, h1, h2, h3, h4, h5, h6]

/-- A linear-perpetual runtime config for stream witnesses. -/
def rtcLin : RuntimeFuturesConfig :=
  { market_type := "futures_linear_perpetual", inverse := false, hedge_mode := true,
    max_leverage := 100, coin := "BTC", quote := "USDT", price_step := 5,
    qty_step := 1, min_qty := 1, min_cost := 0, margin_coin := "USDT" }

/-- An all-flat position for stream witnesses. -/
def posFlat : Position :=
  { long := { size := 0, price := 0, liquidation_price := 0 },
    short := { size := 0, price := 0, liquidation_price := 0 },
    wallet_balance := 0 }

/-- A concrete `PartiallyFilled` order element for the C2 witness. -/
def elmPF : OrderElm :=
  { symbol := "BTCUSDT", order_status := "PartiallyFilled", order_id := "o1",
    price := 50000, qty := 1, order_type := "Limit", side := "Buy",
    timestamp := 5, update_time := 6, create_type := "CreateByUser",
    order_link_id := "" }

/-- Witness for C2: a concrete `PartiallyFilled` event removes the order
from the open set and flags the partial execution, and nothing else. -/
theorem order_status_transition_table_witness :
    standardize_user_stream_event "BTCUSDT" rtcLin posFlat (.order [elmPF]) =
      { deleted_order_id := some "o1", partially_filled := some "o1" } :=
  (order_status_transition_table "BTCUSDT" rtcLin posFlat elmPF rfl).2.2.1 rfl

/-- C4: on an inverse-perpetual (one-way) market, a `New` order event with no
intent tag infers its position side from the current position: both legs
flat → `long` for a buy, `short` for a sell; long flat and short nonzero →
`short`; long nonzero → `long`. -/
theorem inverse_perpetual_pos_side_inference (cfgSymbol : String)
    (rtc : RuntimeFuturesConfig) (position : Position) (elm : OrderElm)
    (hsym : elm.symbol = cfgSymbol)
    (hmt : strHasSub rtc.market_type "inverse_perpetual" = true)
    (hnew : elm.order_status = "New")
    (hno1 : strHasSub elm.order_link_id "entry" = false)
    (hno2 : strHasSub elm.order_link_id "close" = false) :
    (position.long.size = 0 → position.short.size = 0 → elm.side = "Buy" →
      Option.map NewOpenOrder.position_side
        (standardize_user_stream_event cfgSymbol rtc position
          (.order [elm])).new_open_order = some "long") ∧
    (position.long.size = 0 → position.short.size = 0 → elm.side = "Sell" →
      Option.map NewOpenOrder.position_side
        (standardize_user_stream_event cfgSymbol rtc position
          (.order [elm])).new_open_order = some "short") ∧
    (position.long.size = 0 → position.short.size ≠ 0 →
      Option.map NewOpenOrder.position_side
        (standardize_user_stream_event cfgSymbol rtc position
          (.order [elm])).new_open_order = some "short") ∧
    (position.long.size ≠ 0 →
      Option.map NewOpenOrder.position_side
        (standardize_user_stream_event cfgSymbol rtc position
          (.order [elm])).new_open_order = some "long") := by
  have hred : (standardize_user_stream_event cfgSymbol rtc position
      (.order [elm])).new_open_order = some (newOpenOrderOf rtc position elm) := by
    simp [standardize_user_stream_event, processOrderElm, hsym, hnew]
  refine ⟨?_, ?_, ?_, ?_⟩
  · intro h1 h2 h3
    rw [hred]
    simp [newOpenOrderOf, hmt, h1, h2, h3]
    decide
  · intro h1 h2 h3
    rw [hred]
    simp [newOpenOrderOf, hmt, h1, h2, h3]
    decide
  · intro h1 h2
    rw [hred]
    simp [newOpenOrderOf, hmt, h1, h2]
  · intro h1
    rw [hred]
    simp [newOpenOrderOf, hmt, h1]

/-- An inverse-perpetual runtime config for stream witnesses. -/
def rtcInv : RuntimeFuturesConfig :=
  { market_type := "futures_inverse_perpetual", inverse := true, hedge_mode := false,
    max_leverage := 100, coin := "BTC", quote := "USD", price_step := 5,
    qty_step := 1, min_qty := 1, min_cost := 0, margin_coin := "BTC" }

/-- A concrete untagged `New` buy order element for the C4 witness. -/
def elmNewBuy : OrderElm :=
  { symbol := "BTCUSD", order_status := "New", order_id := "o2",
    price := 50000, qty := 1, order_type := "Limit", side := "Buy",
    timestamp := 5, update_time := 6, create_type := "CreateByUser",
    order_link_id := "grid" }

/-- Witness for C4: with both legs flat, a new untagged buy order on an
inverse-perpetual market infers the `long` side. -/
theorem inverse_perpetual_pos_side_inference_witness :
    Option.map NewOpenOrder.position_side
      (standardize_user_stream_event "BTCUSD" rtcInv posFlat
        (.order [elmNewBuy])).new_open_order = some "long" :=
  (inverse_perpetual_pos_side_inference "BTCUSD" rtcInv posFlat elmNewBuy rfl
    (by decide) rfl (by decide) (by decide)).1 rfl rfl rfl

/-- Folding a nonempty wallet-topic data list always leaves a wallet-balance
entry. -/
theorem walletFoldSome (data : List WalletElm) : ∀ std : Standardized, data ≠ [] →
    ∃ v, (data.foldl
      (fun std elm => { std with wallet_balance := some elm.wallet_balance })
      std).wallet_balance = some v := by
  induction data with
  | nil =>
    intro std h
    exact absurd rfl h
  | cons a tl ih =>
    intro std _
    by_cases htl : tl = []
    · subst htl
      exact ⟨a.wallet_balance, rfl⟩
    · rw [List.foldl_cons]
      exact ih _ htl

/-- C10: a wallet-topic event (with a nonempty data list) produces a
wallet-balance update exactly when the config is not inverse; for inverse
variants a wallet-topic event yields no state change at all, and the wallet
balance is instead taken from position-topic elements for the configured
symbol, whose `wallet_balance` field is read only when inverse. -/
theorem wallet_balance_update_policy (cfgSymbol : String)
    (rtc : RuntimeFuturesConfig) (position : Position) :
    (∀ data : List WalletElm, data ≠ [] →
      ((standardize_user_stream_event cfgSymbol rtc position
          (.wallet data)).wallet_balance ≠ none ↔ rtc.inverse = false)) ∧
    (rtc.inverse = true → ∀ data : List WalletElm,
      standardize_user_stream_event cfgSymbol rtc position (.wallet data) = {}) ∧
    (∀ elm : PositionElm, elm.symbol = cfgSymbol →
      (standardize_user_stream_event cfgSymbol rtc position
          (.position [elm])).wallet_balance =
        if rtc.inverse then some elm.wallet_balance else none) := by
  refine ⟨?_, ?_, ?_⟩
  · intro data hdata
    cases hinv : rtc.inverse with
    | true => simp [standardize_user_stream_event, hinv]
    | false =>
      obtain ⟨v, hv⟩ := walletFoldSome data {} hdata
      simp [standardize_user_stream_event, hinv, hv]
  · intro hinv data
    simp [standardize_user_stream_event, hinv]
  · intro elm hsym
    cases hinv : rtc.inverse with
    | true =>
      simp only [standardize_user_stream_event, List.foldl, processPositionElm,
        hsym, beq_self_eq_true, if_true, hinv]
    | false =>
      simp only [standardize_user_stream_event, List.foldl, processPositionElm,
        hsym, beq_self_eq_true, if_true, hinv]
      split_ifs <;> rfl

/-- Witness for C10: with an inverse config a wallet event is a no-op and a
position element carries the balance; with a linear config the wallet event
carries it. -/
theorem wallet_balance_update_policy_witness :
    standardize_user_stream_event "BTCUSD" rtcInv posFlat
      (.wallet [{ wallet_balance := 42 }]) = {} ∧
    (standardize_user_stream_event "BTCUSD" rtcInv posFlat
        (.position [{ symbol := "BTCUSD", side := "Buy", size := 3,
                      entry_price := 9, wallet_balance := 7 }])).wallet_balance =
      (if rtcInv.inverse then some 7 else none) ∧
    ((standardize_user_stream_event "BTCUSDT" rtcLin posFlat
        (.wallet [{ wallet_balance := 42 }])).wallet_balance ≠ none ↔
      rtcLin.inverse = false) :=
  ⟨(wallet_balance_update_policy "BTCUSD" rtcInv posFlat).2.1 rfl
      [{ wallet_balance := 42 }],
   (wallet_balance_update_policy "BTCUSD" rtcInv posFlat).2.2
      { symbol := "BTCUSD", side := "Buy", size := 3, entry_price := 9,
        wallet_balance := 7 } rfl,
   (wallet_balance_update_policy "BTCUSDT" rtcLin posFlat).1
      [{ wallet_balance := 42 }] (by decide)⟩

/-- A normalized income record as `fetch_income` produces it, with the
fields `get_all_income` inspects. -/
structure IncomeRecord where
  transaction_id : Int
  timestamp : Int
  trade_id : String
deriving Repr, DecidableEq

/-- Python's `income[-n:]` for `n > 0`: the last `min n (length income)`
elements. -/
def lastSlice (income : List IncomeRecord) (n : Nat) : List IncomeRecord :=
  income.drop (income.length - n)

/-- The `while True` paging loop of `Bybit.get_all_income` (lines 377-396),
with the HTTP fetch factored out into `fetch : limit → page → records` and a
fuel bound standing for the unbounded loop (`none` = fuel exhausted, the
source loop would still be running).  Stops when a page is empty, equals the
tail of the accumulated records, or is shorter than the page size 50. -/
def getAllIncomeLoop (fetch : Nat → Nat → List IncomeRecord) :
    Nat → List IncomeRecord → Nat → Option (List IncomeRecord)
  | 0, _, _ => none
  | fuel + 1, income, page =>
    let fetched := fetch 50 page
    if fetched.length = 0 then some income
    else if fetched = lastSlice income fetched.length then some income
    else if fetched.length < 50 then some (income ++ fetched)
    else getAllIncomeLoop fetch fuel (income ++ fetched) (page + 1)

/-- One step of the Python dict comprehension
`{e["transaction_id"]: e for e in income}`: a repeated key keeps its first
position but takes the latest value; a new key is appended. -/
def dictInsert (d : List IncomeRecord) (e : IncomeRecord) : List IncomeRecord :=
  if d.any (fun x => x.transaction_id == e.transaction_id) then
    d.map (fun x => if x.transaction_id == e.transaction_id then e else x)
  else d ++ [e]

/-- The value list of `{e["transaction_id"]: e for e in income}`. -/
def dedupByTid (income : List IncomeRecord) : List IncomeRecord :=
  income.foldl dictInsert []

instance : DecidableRel (fun a b : IncomeRecord => a.timestamp ≤ b.timestamp) :=
  fun a b => Int.decLe a.timestamp b.timestamp

instance : IsTotal IncomeRecord (fun a b => a.timestamp ≤ b.timestamp) :=
  ⟨fun a b => Int.le_total a.timestamp b.timestamp⟩

instance : IsTrans IncomeRecord (fun a b => a.timestamp ≤ b.timestamp) :=
  ⟨fun _ _ _ hab hbc => le_trans hab hbc⟩

/-- `Bybit.get_all_income` (lines 370-398): page with a fixed page size of
50, then deduplicate the accumulated records by transaction id and sort the
survivors ascending by timestamp (the source's stable `sorted`, modelled by
insertion sort). -/
def get_all_income (fetch : Nat → Nat → List IncomeRecord) (fuel : Nat) :
    Option (List IncomeRecord) :=
  (getAllIncomeLoop fetch fuel [] 1).map
    (fun income =>
      List.insertionSort (fun a b => a.timestamp ≤ b.timestamp) (dedupByTid income))

/-- Inserting into the transaction-id dict preserves distinctness of the
keys. -/
theorem dictInsert_tid_nodup (d : List IncomeRecord) (e : IncomeRecord)
    (h : (d.map (fun x => x.transaction_id)).Nodup) :
    ((dictInsert d e).map (fun x => x.transaction_id)).Nodup := by
  unfold dictInsert
  split_ifs with hmem
  · have hsame : ((d.map (fun x =>
        if x.transaction_id == e.transaction_id then e else x)).map
          (fun x => x.transaction_id)) = d.map (fun x => x.transaction_id) := by
      rw [List.map_map]
      apply List.map_congr_left
      intro x _
      by_cases hx : x.transaction_id = e.transaction_id
      · simp [hx]
      · simp [hx]
    rw [hsame]
    exact h
  · have hne : ∀ x ∈ d, x.transaction_id ≠ e.transaction_id := by
      intro x hx hxe
      exact hmem (List.any_eq_true.mpr ⟨x, hx, by simp [hxe]⟩)
    rw [List.map_append]
    refine List.Nodup.append h (List.nodup_singleton _) ?_
    intro a ha hb
    obtain ⟨x, hx, rfl⟩ := List.mem_map.mp ha
    rw [List.mem_map] at hb
    obtain ⟨y, hy, hye⟩ := hb
    rw [List.mem_singleton] at hy
    subst hy
    exact hne x hx hye.symm

/-- Folding dict insertion over any record list keeps the keys distinct. -/
theorem foldl_dictInsert_nodup : ∀ (l d : List IncomeRecord),
    (d.map (fun x => x.transaction_id)).Nodup →
    ((l.foldl dictInsert d).map (fun x => x.transaction_id)).Nodup := by
  intro l
  induction l with
  | nil =>
    intro d h
    exact h
  | cons a tl ih =>
    intro d h
    rw [List.foldl_cons]
    exact ih _ (dictInsert_tid_nodup d a h)

/-- The dict comprehension's value list has pairwise-distinct transaction
ids. -/
theorem dedupByTid_tid_nodup (income : List IncomeRecord) :
    ((dedupByTid income).map (fun x => x.transaction_id)).Nodup :=
  foldl_dictInsert_nodup income [] List.nodup_nil

/-- C3: every completed `get_all_income` run pages with the fixed page size
50, stopping exactly when a page is empty, shorter than the page size, or
equal to the tail of the accumulated records; its result has no two records
with the same transaction id (deduplication precedes sorting) and is
non-decreasing in timestamp. -/
theorem get_all_income_dedup_sorted (fetch : Nat → Nat → List IncomeRecord)
    (fuel : Nat) (out : List IncomeRecord)
    (h : get_all_income fetch fuel = some out) :
    (out.map (fun x => x.transaction_id)).Nodup ∧
    out.Sorted (fun a b => a.timestamp ≤ b.timestamp) ∧
    (∀ (f2 : Nat → Nat → List IncomeRecord) (fuel2 : Nat)
        (income : List IncomeRecord) (page : Nat),
      getAllIncomeLoop f2 (fuel2 + 1) income page =
        if (f2 50 page).length = 0 then some income
        else if f2 50 page = lastSlice income (f2 50 page).length then some income
        else if (f2 50 page).length < 50 then some (income ++ f2 50 page)
        else getAllIncomeLoop f2 fuel2 (income ++ f2 50 page) (page + 1)) := by
  obtain ⟨income, rfl⟩ : ∃ income,
      out = List.insertionSort (fun a b => a.timestamp ≤ b.timestamp)
        (dedupByTid income) := by
    unfold get_all_income at h
    cases hl : getAllIncomeLoop fetch fuel [] 1 with
    | none =>
      rw [hl] at h
      exact Option.noConfusion h
    | some income =>
      rw [hl] at h
      injection h with h
      exact ⟨income, h.symm⟩
  refine ⟨?_, List.sorted_insertionSort _ _, fun f2 fuel2 income page => rfl⟩
  have hperm := List.perm_insertionSort
    (fun a b : IncomeRecord => a.timestamp ≤ b.timestamp) (dedupByTid income)
  exact ((hperm.map (fun x => x.transaction_id)).nodup_iff).mpr
    (dedupByTid_tid_nodup income)

/-- Venue pages for the C3 witness: one short page whose last record repeats
an earlier transaction id out of timestamp order. -/
def fetchPagesEx : Nat → Nat → List IncomeRecord := fun _ page =>
  if page = 1 then
    [{ transaction_id := 2, timestamp := 30, trade_id := "a" },
     { transaction_id := 1, timestamp := 10, trade_id := "b" },
     { transaction_id := 2, timestamp := 30, trade_id := "a" }]
  else []

/-- Witness for C3: the repeated transaction id appears once and the output
is timestamp-sorted. -/
theorem get_all_income_dedup_sorted_witness :
    get_all_income fetchPagesEx 5 =
      some [{ transaction_id := 1, timestamp := 10, trade_id := "b" },
            { transaction_id := 2, timestamp := 30, trade_id := "a" }] ∧
    (([{ transaction_id := 1, timestamp := 10, trade_id := "b" },
       { transaction_id := 2, timestamp := 30, trade_id := "a" }] :
        List IncomeRecord).map (fun x => x.transaction_id)).Nodup ∧
    ([{ transaction_id := 1, timestamp := 10, trade_id := "b" },
      { transaction_id := 2, timestamp := 30, trade_id := "a" }] :
        List IncomeRecord).Sorted (fun a b => a.timestamp ≤ b.timestamp) := by
  have h : get_all_income fetchPagesEx 5 =
      some [{ transaction_id := 1, timestamp := 10, trade_id := "b" },
            { transaction_id := 2, timestamp := 30, trade_id := "a" }] := by rfl
  exact ⟨h, (get_all_income_dedup_sorted fetchPagesEx 5 _ h).1,
    (get_all_income_dedup_sorted fetchPagesEx 5 _ h).2.1⟩

end Bybit
